import Mathlib

/-! Overview.
Verification of the GPS log-line processing code of the smart-cities notebook.

The notebook's Python code is shallowly embedded as follows:
- a Python string is a `List Char` (`PyStr`);
- `str.split(",")` is `List.splitOn ','`;
- `str.strip()` is `pyStrip`, dropping leading and trailing whitespace;
- a Python dict with string keys and float values is an association list
  `List (String × ℚ)` (`PyDict`), kept in insertion order like a dict literal;
- Python float values are modelled by exact rationals `ℚ`;
- fallible computations (indexing, `float(...)`, `datetime.strptime`) return
  `Option`, with `none` for a raised exception;
- Spark RDD operations on a single text file are modelled as list operations:
  `rdd.filter` is `List.filter`, `rdd.map` is a map (sequenced through `Option`
  because the mapped Python function may raise), and `rdd.min()` is a fold of
  `min` over the list, which fails on the empty list exactly like Spark's
  `RDD.min` on an empty RDD.
-/

/-- A Python string, embedded as its list of characters. -/
abbrev PyStr := List Char

/-- A Python dict with string keys and float values, as an ordered association list. -/
abbrev PyDict := List (String × ℚ)

/-- The whitespace characters stripped by Python's `str.strip()` (ASCII range). -/
def pyIsSpace (c : Char) : Bool :=
  c = ' ' || c = '\t' || c = '\n' || c = '\r' || c = '\x0b' || c = '\x0c'

/-- Drop the trailing run of characters satisfying `p`. -/
def dropTrailing (p : Char → Bool) (l : PyStr) : PyStr :=
  (l.reverse.dropWhile p).reverse

/-- Python's `str.strip()`: remove leading and trailing whitespace. -/
def pyStrip (s : PyStr) : PyStr :=
  dropTrailing pyIsSpace (s.dropWhile pyIsSpace)

/-- Python's `line.split(",")`. -/
def pySplitComma (s : PyStr) : List PyStr :=
  s.splitOn ','

/-- Source: `def notTraceMetadata(line): a = line.split(","); return True if len(a) == 7 else False` -/
def notTraceMetadata (line : PyStr) : Bool :=
  if (pySplitComma line).length = 7 then true else false

/-! ### Helper lemmas about comma splitting and stripping -/

theorem splitOn_eq_splitOnP (l : PyStr) : l.splitOn ',' = l.splitOnP (· == ',') := rfl

/-- Every field produced by splitting on a separator is free of that separator. -/
theorem mem_splitOnP_no_sep (p : Char → Bool) :
    ∀ (l : PyStr), ∀ f ∈ l.splitOnP p, ∀ c ∈ f, p c = false := by
  intro l
  induction l with
  | nil =>
    intro f hf c hc
    simp [List.splitOnP_nil] at hf
    subst hf
    simp at hc
  | cons x xs ih =>
    intro f hf c hc
    rw [List.splitOnP_cons] at hf
    by_cases hx : p x
    · rw [if_pos hx] at hf
      rcases List.mem_cons.mp hf with rfl | hf2
      · simp at hc
      · exact ih f hf2 c hc
    · rw [if_neg hx] at hf
      obtain ⟨h, t, hht⟩ : ∃ h t, xs.splitOnP p = h :: t := by
        cases hs : xs.splitOnP p with
        | nil => exact absurd hs (List.splitOnP_ne_nil p xs)
        | cons h t => exact ⟨h, t, rfl⟩
      rw [hht] at hf
      simp only [List.modifyHead, List.mem_cons] at hf
      rcases hf with hf | hf
      · subst hf
        rcases List.mem_cons.mp hc with rfl | hc
        · simpa using hx
        · exact ih h (hht ▸ List.mem_cons_self _ _) c hc
      · exact ih f (hht ▸ List.mem_cons_of_mem _ hf) c hc

theorem mem_splitOn_no_comma (l f : PyStr) (hf : f ∈ l.splitOn ',') : ∀ c ∈ f, c ≠ ',' := by
  intro c hc
  have := mem_splitOnP_no_sep (· == ',') l f (by rwa [← splitOn_eq_splitOnP]) c hc
  simpa using this

theorem splitOn_append_cons (a b : PyStr) (ha : ∀ c ∈ a, c ≠ ',') :
    (a ++ ',' :: b).splitOn ',' = a :: b.splitOn ',' := by
  rw [splitOn_eq_splitOnP, splitOn_eq_splitOnP]
  exact List.splitOnP_first _ _ (by simpa using ha) ',' (by simp) b

theorem splitOn_no_comma (a : PyStr) (ha : ∀ c ∈ a, c ≠ ',') : a.splitOn ',' = [a] := by
  rw [splitOn_eq_splitOnP]
  exact List.splitOnP_eq_single _ _ (by simpa using ha)

/-- A line with exactly seven comma-separated fields is the fields joined by commas. -/
theorem eq_join_of_splitOn_seven (l f0 f1 f2 f3 f4 f5 f6 : PyStr)
    (h : l.splitOn ',' = [f0, f1, f2, f3, f4, f5, f6]) :
    l = f0 ++ ',' :: (f1 ++ ',' :: (f2 ++ ',' :: (f3 ++ ',' :: (f4 ++ ',' :: (f5 ++ ',' :: f6))))) := by
  have hj : [','].intercalate (l.splitOn ',') = l := by rw [List.intercalate_splitOn]
  rw [h] at hj
  rw [← hj]
  simp [List.intercalate, List.intersperse]

theorem dropWhile_append_cons (p : Char → Bool) (a b : PyStr) (c : Char) (hc : p c = false) :
    (a ++ c :: b).dropWhile p = a.dropWhile p ++ c :: b := by
  induction a with
  | nil => simp [List.dropWhile_cons, hc]
  | cons x xs ih =>
    by_cases hx : p x <;> simp [List.dropWhile_cons, hx, ih]

theorem dropTrailing_append_cons (p : Char → Bool) (a b : PyStr) (c : Char) (hc : p c = false) :
    dropTrailing p (a ++ c :: b) = a ++ c :: dropTrailing p b := by
  have hrev : (a ++ c :: b).reverse = b.reverse ++ c :: a.reverse := by
    simp
  rw [dropTrailing, hrev, dropWhile_append_cons p _ _ c hc]
  simp [dropTrailing]

theorem not_mem_dropWhile (p : Char → Bool) (l : PyStr) (c : Char) (h : c ∉ l) :
    c ∉ l.dropWhile p :=
  fun hm => h ((List.dropWhile_sublist _).mem hm)

theorem not_mem_dropTrailing (p : Char → Bool) (l : PyStr) (c : Char) (h : c ∉ l) :
    c ∉ dropTrailing p l := by
  intro hm
  rw [dropTrailing, List.mem_reverse] at hm
  exact (h (by simpa using (List.dropWhile_sublist (l := l.reverse) p).mem hm))

/-- Comma is not Python whitespace. -/
theorem pyIsSpace_comma : pyIsSpace ',' = false := by decide

/-- Stripping a seven-field line strips the first field on the left and the last
field on the right, leaving the middle fields unchanged. -/
theorem splitOn_pyStrip_seven (l f0 f1 f2 f3 f4 f5 f6 : PyStr)
    (h : l.splitOn ',' = [f0, f1, f2, f3, f4, f5, f6]) :
    (pyStrip l).splitOn ',' =
      [f0.dropWhile pyIsSpace, f1, f2, f3, f4, f5, dropTrailing pyIsSpace f6] := by
  have hfree : ∀ f ∈ [f0, f1, f2, f3, f4, f5, f6], ∀ c ∈ f, c ≠ ',' := by
    rw [← h]
    exact mem_splitOn_no_comma l
  have h0 := hfree f0 (by simp)
  have h1 := hfree f1 (by simp)
  have h2 := hfree f2 (by simp)
  have h3 := hfree f3 (by simp)
  have h4 := hfree f4 (by simp)
  have h5 := hfree f5 (by simp)
  have h6 := hfree f6 (by simp)
  have hl := eq_join_of_splitOn_seven l f0 f1 f2 f3 f4 f5 f6 h
  have hstrip : pyStrip l =
      f0.dropWhile pyIsSpace ++ ',' :: (f1 ++ ',' :: (f2 ++ ',' :: (f3 ++ ',' :: (f4 ++ ',' ::
        (f5 ++ ',' :: dropTrailing pyIsSpace f6))))) := by
    rw [pyStrip, hl]
    rw [dropWhile_append_cons pyIsSpace _ _ ',' pyIsSpace_comma]
    rw [dropTrailing_append_cons pyIsSpace _ _ ',' pyIsSpace_comma]
    rw [dropTrailing_append_cons pyIsSpace _ _ ',' pyIsSpace_comma]
    rw [dropTrailing_append_cons pyIsSpace _ _ ',' pyIsSpace_comma]
    rw [dropTrailing_append_cons pyIsSpace _ _ ',' pyIsSpace_comma]
    rw [dropTrailing_append_cons pyIsSpace _ _ ',' pyIsSpace_comma]
    rw [dropTrailing_append_cons pyIsSpace _ _ ',' pyIsSpace_comma]
  rw [hstrip]
  have hd0 : ∀ c ∈ f0.dropWhile pyIsSpace, c ≠ ',' := by
    intro c hc
    intro heq
    subst heq
    exact not_mem_dropWhile pyIsSpace f0 ',' (fun hm => h0 ',' hm rfl) hc
  have hd6 : ∀ c ∈ dropTrailing pyIsSpace f6, c ≠ ',' := by
    intro c hc hceq
    subst hceq
    exact not_mem_dropTrailing pyIsSpace f6 ',' (fun hm => h6 ',' hm rfl) hc
  rw [splitOn_append_cons _ _ hd0, splitOn_append_cons _ _ h1, splitOn_append_cons _ _ h2,
    splitOn_append_cons _ _ h3, splitOn_append_cons _ _ h4, splitOn_append_cons _ _ h5,
    splitOn_no_comma _ hd6]

/-! ### Model of Python's `float(...)` -/

/-- Numeric value of a list of decimal digit characters. -/
def digitsToNat (ds : PyStr) : Nat :=
  ds.foldl (fun n d => 10 * n + (d.toNat - 48)) 0

/-- A nonempty run of decimal digits, as an exponent value. -/
def parseExpDigits (s : PyStr) : Option Int :=
  if s ≠ [] ∧ s.all Char.isDigit then some (digitsToNat s) else none

/-- Optionally signed exponent digits after `e`/`E`. -/
def parseExpPart (s : PyStr) : Option Int :=
  match s with
  | '+' :: r => parseExpDigits r
  | '-' :: r => (parseExpDigits r).map Neg.neg
  | r => parseExpDigits r

/-- The unsigned part of a Python float literal:
`digits [. digits] [(e|E) [sign] digits]` or `. digits [(e|E) [sign] digits]`. -/
def pyFloatMag (s : PyStr) : Option ℚ :=
  let ip := s.takeWhile Char.isDigit
  let r1 := s.dropWhile Char.isDigit
  match r1 with
  | [] => if ip = [] then none else some (digitsToNat ip : ℚ)
  | '.' :: r2 =>
    let fp := r2.takeWhile Char.isDigit
    let r3 := r2.dropWhile Char.isDigit
    if ip = [] ∧ fp = [] then none
    else
      let mant : ℚ := (digitsToNat ip : ℚ) + (digitsToNat fp : ℚ) / ((10 : ℚ) ^ fp.length)
      match r3 with
      | [] => some mant
      | 'e' :: r4 => (parseExpPart r4).map (fun ex => mant * (10 : ℚ) ^ ex)
      | 'E' :: r4 => (parseExpPart r4).map (fun ex => mant * (10 : ℚ) ^ ex)
      | _ => none
  | 'e' :: r4 =>
    if ip = [] then none
    else (parseExpPart r4).map (fun ex => (digitsToNat ip : ℚ) * (10 : ℚ) ^ ex)
  | 'E' :: r4 =>
    if ip = [] then none
    else (parseExpPart r4).map (fun ex => (digitsToNat ip : ℚ) * (10 : ℚ) ^ ex)
  | _ => none

/-- Model of Python's built-in `float(str)`: strips surrounding whitespace, then
parses an optionally signed decimal literal. Float values are modelled as exact
rationals; the special literals `inf`/`nan` and underscore separators are not
modelled. -/
def pyFloat (s : PyStr) : Option ℚ :=
  match pyStrip s with
  | '+' :: r => pyFloatMag r
  | '-' :: r => (pyFloatMag r).map Neg.neg
  | r => pyFloatMag r

/-! ### Model of `datetime.strptime(s, "%Y-%m-%d %H:%M:%S").timestamp()` -/

/-- Read a run of decimal digits of length between `minL` and `maxL` whose value
is between `lo` and `hi`, returning the value and the rest of the input.  This
models one numeric directive of CPython's `_strptime` regular expression. -/
def readNum (minL maxL lo hi : Nat) (s : PyStr) : Option (Nat × PyStr) :=
  let ds := s.takeWhile Char.isDigit
  if minL ≤ ds.length ∧ ds.length ≤ maxL ∧ lo ≤ digitsToNat ds ∧ digitsToNat ds ≤ hi then
    some (digitsToNat ds, s.dropWhile Char.isDigit)
  else none

/-- Consume one expected literal character of the format. -/
def expectChar (c : Char) (s : PyStr) : Option PyStr :=
  match s with
  | x :: r => if x = c then some r else none
  | [] => none

/-- Consume a nonempty run of whitespace (a literal blank in the format matches
one or more whitespace characters). -/
def expectSpaces (s : PyStr) : Option PyStr :=
  match s with
  | x :: r => if pyIsSpace x then some (r.dropWhile pyIsSpace) else none
  | [] => none

def isLeapYear (y : Nat) : Bool :=
  (y % 4 = 0 && y % 100 ≠ 0) || y % 400 = 0

def daysInMonth (y m : Nat) : Nat :=
  [31, if isLeapYear y then 29 else 28, 31, 30, 31, 30, 31, 31, 30, 31, 30, 31].getD (m - 1) 31

def daysBeforeMonth (y m : Nat) : Nat :=
  [0, 31, 59, 90, 120, 151, 181, 212, 243, 273, 304, 334].getD (m - 1) 0 +
    (if isLeapYear y ∧ 2 < m then 1 else 0)

/-- Day number of a proleptic-Gregorian date, with 0001-01-01 as day 0. -/
def daysFromYear1 (y m d : Nat) : Nat :=
  365 * (y - 1) + (y - 1) / 4 - (y - 1) / 100 + (y - 1) / 400 + daysBeforeMonth y m + (d - 1)

/-- Seconds since 1970-01-01 00:00:00 of a calendar date and time of day
(1970-01-01 is day 719162 from year 1). -/
def epochSeconds (y m d hh mi ss : Nat) : Int :=
  86400 * ((daysFromYear1 y m d : Int) - 719162) + 3600 * hh + 60 * mi + ss

/-- Model of `datetime.strptime(s, "%Y-%m-%d %H:%M:%S").timestamp()`: parse a
four-digit year, month, day, hour, minute and second with the fixed separators
of the format, requiring the whole input to be consumed and the date to be a
real calendar date, and return the epoch seconds.  The naive datetime's local
timezone is modelled as UTC, and the whole-second float returned by
`timestamp()` is modelled by the exact integer it represents. -/
def strptimeTimestamp (s : PyStr) : Option Int := do
  let (y, s1) ← readNum 4 4 1 9999 s
  let s2 ← expectChar '-' s1
  let (m, s3) ← readNum 1 2 1 12 s2
  let s4 ← expectChar '-' s3
  let (d, s5) ← readNum 1 2 1 31 s4
  let s6 ← expectSpaces s5
  let (hh, s7) ← readNum 1 2 0 23 s6
  let s8 ← expectChar ':' s7
  let (mi, s9) ← readNum 1 2 0 59 s8
  let s10 ← expectChar ':' s9
  let (ss, s11) ← readNum 1 2 0 59 s10
  if s11 = [] ∧ d ≤ daysInMonth y m then
    some (epochSeconds y m d hh mi ss)
  else none

/-! ### The parser `parseLogLine` -/

/-- Source:
```
def parseLogLine(line):
    line = line.strip().split(",")
    date = line[5] + " " + line[6]
    return { "lat": float(line[0]), "lon": float(line[1]),
             "ts": datetime.strptime(date, "%Y-%m-%d %H:%M:%S").timestamp() }
``` -/
def parseLogLine (line : PyStr) : Option PyDict := do
  let fields := pySplitComma (pyStrip line)
  let f5 ← fields[5]?
  let f6 ← fields[6]?
  let date := f5 ++ ' ' :: f6
  let f0 ← fields[0]?
  let f1 ← fields[1]?
  let lat ← pyFloat f0
  let lon ← pyFloat f1
  let ts ← strptimeTimestamp date
  pure [("lat", lat), ("lon", lon), ("ts", (ts : ℚ))]

/-! ### The notebook pipeline -/

/-- Source: `linesRDD = rdd1.filter( notTraceMetadata )` -/
def linesRDD (lines : List PyStr) : List PyStr :=
  lines.filter notTraceMetadata

/-- Source: `coordinatesRDD = rdd1.filter( notTraceMetadata ).map( parseLogLine )`.
The mapped Python function may raise, so the map is sequenced through `Option`. -/
def coordinatesRDD (lines : List PyStr) : Option (List PyDict) :=
  (lines.filter notTraceMetadata).mapM parseLogLine

/-- Source: `timestampsRDD = coordinatesRDD.map( lambda loc: loc["ts"] )`. -/
def timestampsRDD (locs : List PyDict) : Option (List ℚ) :=
  locs.mapM (fun loc => loc.lookup "ts")

/-- Source: `min_ts = timestampsRDD.min()`. Spark reduces the partition with `min` and
raises on an empty RDD, modelled by `none` on the empty list. -/
def rddMin (xs : List ℚ) : Option ℚ :=
  match xs with
  | [] => none
  | x :: rest => some (rest.foldl min x)

/-- Source: `originRDD = coordinatesRDD.filter( lambda loc: loc["ts"] == min_ts )`.
The filtering function may raise (missing key), so it is sequenced through `Option`. -/
def originFilter (m : ℚ) : List PyDict → Option (List PyDict)
  | [] => some []
  | loc :: rest => do
    let t ← loc.lookup "ts"
    let r ← originFilter m rest
    if t = m then pure (loc :: r) else pure r

/-- Steps 1-3 of the origin-marking cell, starting from the parsed records:
project the timestamps, take their minimum, keep the records at the minimum. -/
def originOfRecords (locs : List PyDict) : Option (List PyDict) := do
  let tss ← timestampsRDD locs
  let min_ts ← rddMin tss
  originFilter min_ts locs

/-- The whole origin-finding cell, from the raw lines of the log file. -/
def originPipeline (lines : List PyStr) : Option (List PyDict) := do
  let locs ← coordinatesRDD lines
  originOfRecords locs

/-- The timestamp of a parsed record (`loc["ts"]`), defaulted for statements. -/
def tsOf (loc : PyDict) : ℚ :=
  (loc.lookup "ts").getD 0

/-- C2: `notTraceMetadata` returns `true` exactly when splitting the line on
commas yields exactly seven fields. -/
theorem notTraceMetadata_iff_seven_fields (line : PyStr) :
    notTraceMetadata line = true ↔ (line.splitOn ',').length = 7 := by
  simp [notTraceMetadata, pySplitComma]

/-- Instance of `notTraceMetadata_iff_seven_fields` at a concrete GPS log line. -/
theorem notTraceMetadata_iff_seven_fields_witness :
    notTraceMetadata "39.9,116.3,0,157,39617,2008-06-18,00:34:09".toList = true ↔
      (("39.9,116.3,0,157,39617,2008-06-18,00:34:09".toList : PyStr).splitOn ',').length = 7 :=
  notTraceMetadata_iff_seven_fields "39.9,116.3,0,157,39617,2008-06-18,00:34:09".toList

/-! ### Destructuring and unfolding helpers -/

theorem exists_seven_of_length {α : Type} (L : List α) (h : L.length = 7) :
    ∃ a b c d e f g, L = [a, b, c, d, e, f, g] := by
  rcases L with _ | ⟨a, _ | ⟨b, _ | ⟨c, _ | ⟨d, _ | ⟨e, _ | ⟨f, _ | ⟨g, _ | ⟨x, t⟩⟩⟩⟩⟩⟩⟩⟩ <;>
    simp_all

/-- Unfolding of `parseLogLine` in terms of the seven fields of the stripped line. -/
theorem parseLogLine_eq_of_fields (line g0 g1 g2 g3 g4 g5 g6 : PyStr)
    (h : (pyStrip line).splitOn ',' = [g0, g1, g2, g3, g4, g5, g6]) :
    parseLogLine line = (do
      let lat ← pyFloat g0
      let lon ← pyFloat g1
      let ts ← strptimeTimestamp (g5 ++ ' ' :: g6)
      pure ([("lat", lat), ("lon", lon), ("ts", (ts : ℚ))] : PyDict)) := by
  rw [parseLogLine, pySplitComma, h]
  rfl

/-- C7: under any input on which it returns at all, `parseLogLine` returns a
mapping with exactly the three keys `lat`, `lon`, `ts`, in that order, and no
other keys. -/
theorem parseLogLine_keys (line : PyStr) (r : PyDict) (h : parseLogLine line = some r) :
    r.map Prod.fst = ["lat", "lon", "ts"] := by
  rw [parseLogLine] at h
  simp only [Option.bind_eq_bind, Option.pure_def, Option.bind_eq_some, Option.some.injEq] at h
  obtain ⟨f5, _, f6, _, f0, _, f1, _, la, _, lo, _, ts, _, hr⟩ := h
  subst hr
  rfl

/-- Instance of `parseLogLine_keys` at a concrete GPS log line. -/
theorem parseLogLine_keys_witness :
    ([("lat", (39 : ℚ)), ("lon", (116 : ℚ)), ("ts", (1213749249 : ℚ))] : PyDict).map
      Prod.fst = ["lat", "lon", "ts"] :=
  parseLogLine_keys "39,116,0,157,39617,2008-06-18,00:34:09".toList
    [("lat", (39 : ℚ)), ("lon", (116 : ℚ)), ("ts", (1213749249 : ℚ))] (by decide)

/-- C8: if `notTraceMetadata` accepts a line, the stripped line that
`parseLogLine` splits also has exactly seven comma-separated fields, so the
accesses at indices 0, 1, 5 and 6 are all in bounds. -/
theorem pyStrip_preserves_seven_fields (line : PyStr) (hv : notTraceMetadata line = true) :
    ((pyStrip line).splitOn ',').length = 7 ∧
      ((pyStrip line).splitOn ',')[0]?.isSome = true ∧
      ((pyStrip line).splitOn ',')[1]?.isSome = true ∧
      ((pyStrip line).splitOn ',')[5]?.isSome = true ∧
      ((pyStrip line).splitOn ',')[6]?.isSome = true := by
  rw [notTraceMetadata_iff_seven_fields] at hv
  obtain ⟨f0, f1, f2, f3, f4, f5, f6, hsplit⟩ := exists_seven_of_length _ hv
  rw [splitOn_pyStrip_seven line f0 f1 f2 f3 f4 f5 f6 hsplit]
  exact ⟨rfl, rfl, rfl, rfl, rfl⟩

/-- Instance of `pyStrip_preserves_seven_fields` at a concrete line with
surrounding whitespace. -/
theorem pyStrip_preserves_seven_fields_witness :
    ((pyStrip "  39.9,116.3,0,157,39617,2008-06-18,00:34:09\n".toList).splitOn ',').length = 7 ∧
      ((pyStrip "  39.9,116.3,0,157,39617,2008-06-18,00:34:09\n".toList).splitOn ',')[0]?.isSome = true ∧
      ((pyStrip "  39.9,116.3,0,157,39617,2008-06-18,00:34:09\n".toList).splitOn ',')[1]?.isSome = true ∧
      ((pyStrip "  39.9,116.3,0,157,39617,2008-06-18,00:34:09\n".toList).splitOn ',')[5]?.isSome = true ∧
      ((pyStrip "  39.9,116.3,0,157,39617,2008-06-18,00:34:09\n".toList).splitOn ',')[6]?.isSome = true :=
  pyStrip_preserves_seven_fields "  39.9,116.3,0,157,39617,2008-06-18,00:34:09\n".toList
    (by decide)

/-- C6: filtering with the validity predicate keeps exactly the well-formed
lines (seven comma-separated fields), in their original order, and signals no
failure: the filter is a total function whose output is a sublist of the input
characterised by the validity predicate. -/
theorem linesRDD_exactly_wellformed (lines : List PyStr) :
    linesRDD lines = lines.filter (fun l => decide ((l.splitOn ',').length = 7)) ∧
      List.Sublist (linesRDD lines) lines ∧
      ∀ l ∈ linesRDD lines, notTraceMetadata l = true := by
  refine ⟨?_, List.filter_sublist _, fun l hl => List.of_mem_filter hl⟩
  apply List.filter_congr
  intro x _
  simp [notTraceMetadata, pySplitComma]

/-- Instance of `linesRDD_exactly_wellformed` on a concrete pair of lines, one
metadata line and one GPS line. -/
theorem linesRDD_exactly_wellformed_witness :
    linesRDD ["Geolife trajectory".toList, "39.9,116.3,0,157,39617,2008-06-18,00:34:09".toList] =
        ["Geolife trajectory".toList,
          "39.9,116.3,0,157,39617,2008-06-18,00:34:09".toList].filter
          (fun l => decide ((l.splitOn ',').length = 7)) ∧
      List.Sublist
        (linesRDD ["Geolife trajectory".toList,
          "39.9,116.3,0,157,39617,2008-06-18,00:34:09".toList])
        ["Geolife trajectory".toList, "39.9,116.3,0,157,39617,2008-06-18,00:34:09".toList] ∧
      ∀ l ∈ linesRDD ["Geolife trajectory".toList,
          "39.9,116.3,0,157,39617,2008-06-18,00:34:09".toList],
        notTraceMetadata l = true :=
  linesRDD_exactly_wellformed
    ["Geolife trajectory".toList, "39.9,116.3,0,157,39617,2008-06-18,00:34:09".toList]

/-! ### Whitespace-stripping invariance of the float parser -/

theorem dropWhile_dropWhile (p : Char → Bool) (l : PyStr) :
    (l.dropWhile p).dropWhile p = l.dropWhile p := by
  induction l with
  | nil => rfl
  | cons x xs ih => by_cases hx : p x <;> simp [List.dropWhile_cons, hx, ih]

theorem pyStrip_dropWhile (s : PyStr) : pyStrip (s.dropWhile pyIsSpace) = pyStrip s := by
  rw [pyStrip, pyStrip, dropWhile_dropWhile]

/-- Python's `float(...)` itself strips whitespace, so pre-stripping the left end of the
field does not change its value. -/
theorem pyFloat_dropWhile (s : PyStr) : pyFloat (s.dropWhile pyIsSpace) = pyFloat s := by
  simp only [pyFloat]
  rw [pyStrip_dropWhile]

/-- C3: when the first and second comma-separated fields of an accepted line are
valid float literals, the `lat` and `lon` fields of the parsed record are their
parsed values. -/
theorem parseLogLine_latlon_eq_parsed (line : PyStr) (r : PyDict)
    (f0 f1 f2 f3 f4 f5 f6 : PyStr) (la lo : ℚ)
    (hsplit : line.splitOn ',' = [f0, f1, f2, f3, f4, f5, f6])
    (hla : pyFloat f0 = some la) (hlo : pyFloat f1 = some lo)
    (hr : parseLogLine line = some r) :
    r.lookup "lat" = some la ∧ r.lookup "lon" = some lo := by
  have hstrip := splitOn_pyStrip_seven line f0 f1 f2 f3 f4 f5 f6 hsplit
  rw [parseLogLine_eq_of_fields line _ _ _ _ _ _ _ hstrip] at hr
  rw [pyFloat_dropWhile, hla, hlo] at hr
  simp only [Option.bind_eq_bind, Option.pure_def, Option.bind_eq_some, Option.some.injEq,
    Option.some_bind] at hr
  obtain ⟨ts, hts, hr⟩ := hr
  subst hr
  constructor <;> rfl

/-- Instance of `parseLogLine_latlon_eq_parsed` at a concrete line. -/
theorem parseLogLine_latlon_eq_parsed_witness :
    (([("lat", (39 : ℚ)), ("lon", (116 : ℚ)), ("ts", (1213749249 : ℚ))] : PyDict).lookup "lat" =
        some 39) ∧
      (([("lat", (39 : ℚ)), ("lon", (116 : ℚ)), ("ts", (1213749249 : ℚ))] : PyDict).lookup "lon" =
        some 116) :=
  parseLogLine_latlon_eq_parsed "39,116,0,157,39617,2008-06-18,00:34:09".toList
    [("lat", (39 : ℚ)), ("lon", (116 : ℚ)), ("ts", (1213749249 : ℚ))]
    "39".toList "116".toList "0".toList "157".toList "39617".toList
    "2008-06-18".toList "00:34:09".toList 39 116
    (by decide) (by decide) (by decide) (by decide)

/-- C9: two lines with seven comma-separated fields that agree on the first,
second, sixth and seventh fields parse to identical results, whatever their
third, fourth and fifth fields are. -/
theorem parseLogLine_middle_fields_irrelevant (l1 l2 x0 x1 u2 u3 u4 v2 v3 v4 x5 x6 : PyStr)
    (h1 : l1.splitOn ',' = [x0, x1, u2, u3, u4, x5, x6])
    (h2 : l2.splitOn ',' = [x0, x1, v2, v3, v4, x5, x6]) :
    parseLogLine l1 = parseLogLine l2 := by
  rw [parseLogLine_eq_of_fields l1 _ _ _ _ _ _ _ (splitOn_pyStrip_seven l1 _ _ _ _ _ _ _ h1),
    parseLogLine_eq_of_fields l2 _ _ _ _ _ _ _ (splitOn_pyStrip_seven l2 _ _ _ _ _ _ _ h2)]

/-- Instance of `parseLogLine_middle_fields_irrelevant` on two concrete lines
that differ in their third, fourth and fifth fields. -/
theorem parseLogLine_middle_fields_irrelevant_witness :
    parseLogLine "39,116,0,157,39617,2008-06-18,00:34:09".toList =
      parseLogLine "39,116,XX,-1,99999,2008-06-18,00:34:09".toList :=
  parseLogLine_middle_fields_irrelevant
    "39,116,0,157,39617,2008-06-18,00:34:09".toList
    "39,116,XX,-1,99999,2008-06-18,00:34:09".toList
    "39".toList "116".toList "0".toList "157".toList "39617".toList
    "XX".toList "-1".toList "99999".toList "2008-06-18".toList "00:34:09".toList
    (by decide) (by decide)

/-! ### A successful strptime parse consumes everything and ends in a digit -/

theorem readNum_suffix (minL maxL lo hi : Nat) (s : PyStr) (n : Nat) (s' : PyStr)
    (hmin : 1 ≤ minL) (h : readNum minL maxL lo hi s = some (n, s')) :
    ∃ ds, s = ds ++ s' ∧ ds ≠ [] ∧ ∀ c ∈ ds, c.isDigit = true := by
  simp only [readNum] at h
  split at h
  · rename_i hcond
    obtain ⟨rfl, rfl⟩ : digitsToNat (s.takeWhile Char.isDigit) = n ∧
        s.dropWhile Char.isDigit = s' := by simpa using h
    refine ⟨s.takeWhile Char.isDigit, (List.takeWhile_append_dropWhile Char.isDigit s).symm,
      ?_, ?_⟩
    · exact List.ne_nil_of_length_pos (Nat.lt_of_lt_of_le hmin hcond.1)
    · intro c hc
      exact List.mem_takeWhile_imp hc
  · exact absurd h (by simp)

theorem expectChar_suffix (c : Char) (s s' : PyStr) (h : expectChar c s = some s') :
    s = c :: s' := by
  cases s with
  | nil => exact absurd h (by simp [expectChar])
  | cons x r =>
    by_cases hx : x = c
    · subst hx
      simp [expectChar] at h
      rw [h]
    · simp [expectChar, hx] at h

theorem expectSpaces_suffix (s s' : PyStr) (h : expectSpaces s = some s') :
    ∃ w, s = w ++ s' ∧ w ≠ [] := by
  cases s with
  | nil => exact absurd h (by simp [expectSpaces])
  | cons x r =>
    by_cases hx : pyIsSpace x
    · simp only [expectSpaces, hx, if_pos, Option.some.injEq] at h
      refine ⟨x :: r.takeWhile pyIsSpace, ?_, by simp⟩
      rw [← h]
      simp [List.takeWhile_append_dropWhile]
    · simp [expectSpaces, hx] at h

theorem getLast?_append_of_ne_nil {α : Type} (a b : List α) (hb : b ≠ []) :
    (a ++ b).getLast? = b.getLast? := by
  rw [List.getLast?_append]
  cases hbl : b.getLast? with
  | none => exact absurd (by simpa using List.getLast?_eq_none_iff.mp hbl) hb
  | some c => rfl

theorem getLast?_cons_of_ne_nil {α : Type} (x : α) (b : List α) (hb : b ≠ []) :
    (x :: b).getLast? = b.getLast? :=
  getLast?_append_of_ne_nil [x] b hb

theorem pyIsSpace_eq_false_of_isDigit (c : Char) (h : c.isDigit = true) :
    pyIsSpace c = false := by
  by_contra hs
  rw [Bool.not_eq_false] at hs
  rw [pyIsSpace] at hs
  simp only [Bool.or_eq_true, decide_eq_true_eq] at hs
  rcases hs with ((((hs | hs) | hs) | hs) | hs) | hs <;> subst hs <;> exact absurd h (by decide)

/-- If the fixed-format parse succeeds, the last character of the input is the
last digit of the seconds field. -/
theorem strptimeTimestamp_last_digit (s : PyStr) (t : Int)
    (h : strptimeTimestamp s = some t) :
    ∃ c, s.getLast? = some c ∧ c.isDigit = true := by
  rw [strptimeTimestamp] at h
  simp only [Option.bind_eq_bind, Option.pure_def, Option.bind_eq_some] at h
  obtain ⟨⟨y, s1⟩, hy, s2, h2, ⟨m, s3⟩, hm, s4, h4, ⟨d, s5⟩, hd, s6, h6, ⟨hh, s7⟩, h7, s8, h8,
    ⟨mi, s9⟩, h9, s10, h10, ⟨ss, s11⟩, h11, hfin⟩ := h
  by_cases hcond : s11 = [] ∧ d ≤ daysInMonth y m
  case neg =>
    rw [if_neg hcond] at hfin
    cases hfin
  obtain ⟨hs11, -⟩ := hcond
  subst hs11
  obtain ⟨sds, hs10, hsne, hsdig⟩ := readNum_suffix 1 2 0 59 s10 ss [] (Nat.le_refl 1) h11
  rw [List.append_nil] at hs10
  obtain ⟨mds, hs2, -, -⟩ := readNum_suffix 1 2 1 12 s2 m s3 (Nat.le_refl 1) hm
  obtain ⟨dds, hs4, -, -⟩ := readNum_suffix 1 2 1 31 s4 d s5 (Nat.le_refl 1) hd
  obtain ⟨hds, hs6, -, -⟩ := readNum_suffix 1 2 0 23 s6 hh s7 (Nat.le_refl 1) h7
  obtain ⟨mids, hs8, -, -⟩ := readNum_suffix 1 2 0 59 s8 mi s9 (Nat.le_refl 1) h9
  obtain ⟨yds, hs, -, -⟩ := readNum_suffix 4 4 1 9999 s y s1 (by omega) hy
  obtain ⟨w, hs5, -⟩ := expectSpaces_suffix s5 s6 h6
  have e2 := expectChar_suffix '-' s1 s2 h2
  have e4 := expectChar_suffix '-' s3 s4 h4
  have e8 := expectChar_suffix ':' s7 s8 h8
  have e10 := expectChar_suffix ':' s9 s10 h10
  obtain ⟨c, hc⟩ : ∃ c, sds.getLast? = some c := by
    cases hg : sds.getLast? with
    | none => exact absurd (List.getLast?_eq_none_iff.mp hg) hsne
    | some c => exact ⟨c, rfl⟩
  refine ⟨c, ?_, hsdig c (List.mem_of_getLast?_eq_some hc)⟩
  rw [hs, e2, hs2, e4, hs4, hs5, hs6, e8, hs8, e10, hs10]
  rw [getLast?_append_of_ne_nil yds _ (by simp),
    getLast?_cons_of_ne_nil '-' _ (List.append_ne_nil_of_right_ne_nil mds (by simp)),
    getLast?_append_of_ne_nil mds _ (by simp),
    getLast?_cons_of_ne_nil '-' _
      (List.append_ne_nil_of_right_ne_nil dds
        (List.append_ne_nil_of_right_ne_nil w
          (List.append_ne_nil_of_right_ne_nil hds (by simp)))),
    getLast?_append_of_ne_nil dds _
      (List.append_ne_nil_of_right_ne_nil w
        (List.append_ne_nil_of_right_ne_nil hds (by simp))),
    getLast?_append_of_ne_nil w _ (List.append_ne_nil_of_right_ne_nil hds (by simp)),
    getLast?_append_of_ne_nil hds _ (by simp),
    getLast?_cons_of_ne_nil ':' _ (List.append_ne_nil_of_right_ne_nil mids (by simp)),
    getLast?_append_of_ne_nil mids _ (by simp),
    getLast?_cons_of_ne_nil ':' _ hsne]
  exact hc

/-- A line's seventh field keeps its trailing end under stripping whenever the
date-time parse of the raw fields succeeds (the parse forces a digit there). -/
theorem dropTrailing_eq_self_of_strptime (f5 f6 : PyStr) (ts : Int)
    (hts : strptimeTimestamp (f5 ++ ' ' :: f6) = some ts) :
    dropTrailing pyIsSpace f6 = f6 := by
  obtain ⟨c, hc, hcd⟩ := strptimeTimestamp_last_digit _ _ hts
  have hf6ne : f6 ≠ [] := by
    intro hnil
    subst hnil
    rw [getLast?_append_of_ne_nil f5 [' '] (by simp)] at hc
    simp at hc
    subst hc
    exact absurd hcd (by decide)
  have hc6 : f6.getLast? = some c := by
    rw [getLast?_append_of_ne_nil f5 (' ' :: f6) (by simp),
      getLast?_cons_of_ne_nil ' ' f6 hf6ne] at hc
    exact hc
  obtain ⟨ys, rfl⟩ := List.getLast?_eq_some_iff.mp hc6
  rw [show ys ++ [c] = ys ++ c :: [] from rfl,
    dropTrailing_append_cons pyIsSpace ys [] c (pyIsSpace_eq_false_of_isDigit c hcd)]
  rfl

/-- C1: for an accepted line whose sixth and seventh comma-separated fields
(the date and the time, indices 5 and 6) parse under the fixed format
`%Y-%m-%d %H:%M:%S`, the `ts` field of the parsed record is exactly the
epoch-seconds value of that parse. -/
theorem parseLogLine_ts_eq_strptime (line : PyStr) (r : PyDict)
    (f0 f1 f2 f3 f4 f5 f6 : PyStr) (ts : Int)
    (hsplit : line.splitOn ',' = [f0, f1, f2, f3, f4, f5, f6])
    (hts : strptimeTimestamp (f5 ++ ' ' :: f6) = some ts)
    (hr : parseLogLine line = some r) :
    r.lookup "ts" = some (ts : ℚ) := by
  have hdt := dropTrailing_eq_self_of_strptime f5 f6 ts hts
  have hstrip := splitOn_pyStrip_seven line f0 f1 f2 f3 f4 f5 f6 hsplit
  rw [hdt] at hstrip
  rw [parseLogLine_eq_of_fields line _ _ _ _ _ _ _ hstrip, hts] at hr
  simp only [Option.bind_eq_bind, Option.pure_def, Option.bind_eq_some, Option.some.injEq] at hr
  obtain ⟨la, hla, lo, hlo, ts2, hts2, hr⟩ := hr
  obtain rfl : ts = ts2 := by simpa using hts2
  subst hr
  rfl

/-- Instance of `parseLogLine_ts_eq_strptime` at a concrete line. -/
theorem parseLogLine_ts_eq_strptime_witness :
    ([("lat", (39 : ℚ)), ("lon", (116 : ℚ)), ("ts", (1213749249 : ℚ))] : PyDict).lookup "ts" =
      some ((1213749249 : Int) : ℚ) :=
  parseLogLine_ts_eq_strptime "39,116,0,157,39617,2008-06-18,00:34:09".toList
    [("lat", (39 : ℚ)), ("lon", (116 : ℚ)), ("ts", (1213749249 : ℚ))]
    "39".toList "116".toList "0".toList "157".toList "39617".toList
    "2008-06-18".toList "00:34:09".toList 1213749249
    (by decide) (by decide) (by decide)

/-- C5: on a well-formed line (seven comma-separated fields, float-literal first
and second fields, date and time fields that parse under the fixed format),
`notTraceMetadata` and `parseLogLine` both return values without failing: no
error branch is reachable, and the parse returns the expected record. -/
theorem wellformed_line_total (line : PyStr)
    (f0 f1 f2 f3 f4 f5 f6 : PyStr) (la lo : ℚ) (ts : Int)
    (hsplit : line.splitOn ',' = [f0, f1, f2, f3, f4, f5, f6])
    (hla : pyFloat f0 = some la) (hlo : pyFloat f1 = some lo)
    (hts : strptimeTimestamp (f5 ++ ' ' :: f6) = some ts) :
    notTraceMetadata line = true ∧
      parseLogLine line = some [("lat", la), ("lon", lo), ("ts", (ts : ℚ))] := by
  constructor
  · rw [notTraceMetadata_iff_seven_fields, hsplit]
    rfl
  · have hdt := dropTrailing_eq_self_of_strptime f5 f6 ts hts
    have hstrip := splitOn_pyStrip_seven line f0 f1 f2 f3 f4 f5 f6 hsplit
    rw [hdt] at hstrip
    rw [parseLogLine_eq_of_fields line _ _ _ _ _ _ _ hstrip, pyFloat_dropWhile, hla, hlo, hts]
    rfl

/-- Instance of `wellformed_line_total` at a concrete line. -/
theorem wellformed_line_total_witness :
    notTraceMetadata "39,116,0,157,39617,2008-06-18,00:34:09".toList = true ∧
      parseLogLine "39,116,0,157,39617,2008-06-18,00:34:09".toList =
        some [("lat", (39 : ℚ)), ("lon", (116 : ℚ)), ("ts", ((1213749249 : Int) : ℚ))] :=
  wellformed_line_total "39,116,0,157,39617,2008-06-18,00:34:09".toList
    "39".toList "116".toList "0".toList "157".toList "39617".toList
    "2008-06-18".toList "00:34:09".toList 39 116 1213749249
    (by decide) (by decide) (by decide) (by decide)

/-! ### The origin-finding pipeline -/

/-- On a record with exactly the keys `lat`, `lon`, `ts`, the lookup of `ts`
succeeds and returns the record's timestamp. -/
theorem lookup_ts_of_keys (loc : PyDict) (h : loc.map Prod.fst = ["lat", "lon", "ts"]) :
    loc.lookup "ts" = some (tsOf loc) := by
  rcases loc with _ | ⟨⟨k1, v1⟩, _ | ⟨⟨k2, v2⟩, _ | ⟨⟨k3, v3⟩, rest⟩⟩⟩
  · simp at h
  · simp at h
  · simp at h
  · simp only [List.map_cons, List.cons.injEq, List.map_eq_nil_iff] at h
    obtain ⟨rfl, rfl, rfl, rfl⟩ := h
    rfl

/-- Projecting `loc["ts"]` over key-complete records never fails and yields the
timestamps in order. -/
theorem timestampsRDD_eq (locs : List PyDict)
    (hkeys : ∀ loc ∈ locs, loc.map Prod.fst = ["lat", "lon", "ts"]) :
    timestampsRDD locs = some (locs.map tsOf) := by
  induction locs with
  | nil => rfl
  | cons x xs ih =>
    rw [timestampsRDD] at ih ⊢
    rw [List.mapM_cons, lookup_ts_of_keys x (hkeys x (by simp)),
      ih (fun l hl => hkeys l (List.mem_cons_of_mem _ hl))]
    rfl

/-- Spark's `min` reduction on a nonempty collection returns an element that is
a lower bound of the collection. -/
theorem rddMin_cons_spec (x : ℚ) (xs : List ℚ) :
    ∃ m, rddMin (x :: xs) = some m ∧ m ∈ x :: xs ∧ ∀ y ∈ x :: xs, m ≤ y := by
  induction xs generalizing x with
  | nil => exact ⟨x, rfl, by simp, by simp⟩
  | cons y ys ih =>
    obtain ⟨m, hm, hmem, hle⟩ := ih (min x y)
    refine ⟨m, ?_, ?_, ?_⟩
    · rw [rddMin] at hm ⊢
      simpa using hm
    · rcases List.mem_cons.mp hmem with rfl | hmem2
      · rcases min_choice x y with h | h <;> rw [h]
        · exact List.mem_cons_self _ _
        · exact List.mem_cons_of_mem _ (List.mem_cons_self _ _)
      · exact List.mem_cons_of_mem _ (List.mem_cons_of_mem _ hmem2)
    · intro z hz
      rcases List.mem_cons.mp hz with rfl | hz2
      · exact le_trans (hle _ (List.mem_cons_self _ _)) (min_le_left _ _)
      · rcases List.mem_cons.mp hz2 with rfl | hz3
        · exact le_trans (hle _ (List.mem_cons_self _ _)) (min_le_right _ _)
        · exact hle z (List.mem_cons_of_mem _ hz3)

/-- The `loc["ts"] == min_ts` filter keeps nothing when no record is at `m`. -/
theorem originFilter_none (m : ℚ) (locs : List PyDict)
    (hkeys : ∀ loc ∈ locs, loc.map Prod.fst = ["lat", "lon", "ts"])
    (hne : ∀ loc ∈ locs, tsOf loc ≠ m) :
    originFilter m locs = some [] := by
  induction locs with
  | nil => rfl
  | cons x xs ih =>
    rw [originFilter, lookup_ts_of_keys x (hkeys x (by simp)),
      ih (fun l hl => hkeys l (List.mem_cons_of_mem _ hl))
        (fun l hl => hne l (List.mem_cons_of_mem _ hl))]
    simp [hne x (by simp)]

/-- With pairwise-distinct timestamps, the `loc["ts"] == min_ts` filter keeps
exactly the one record whose timestamp is `m`. -/
theorem originFilter_single (m : ℚ) (locs : List PyDict) (l : PyDict)
    (hkeys : ∀ loc ∈ locs, loc.map Prod.fst = ["lat", "lon", "ts"])
    (hdist : locs.Pairwise (fun a b => tsOf a ≠ tsOf b))
    (hl : l ∈ locs) (hlm : tsOf l = m) :
    originFilter m locs = some [l] := by
  induction locs with
  | nil => simp at hl
  | cons x xs ih =>
    rw [originFilter, lookup_ts_of_keys x (hkeys x (by simp))]
    have hpair := List.pairwise_cons.mp hdist
    rcases List.mem_cons.mp hl with rfl | hlx
    · have hxs : originFilter m xs = some [] := by
        apply originFilter_none m xs (fun loc hloc => hkeys loc (List.mem_cons_of_mem _ hloc))
        intro loc hloc he
        exact hpair.1 loc hloc (hlm ▸ he.symm)
      rw [hxs]
      simp [hlm]
    · have hxm : tsOf x ≠ m := fun he => hpair.1 l hlx (he.trans hlm.symm)
      rw [ih (fun loc hloc => hkeys loc (List.mem_cons_of_mem _ hloc)) hpair.2 hlx]
      simp [hxm]

/-- C4: on a nonempty list of parsed records with pairwise-distinct timestamps,
the origin pipeline (project `ts`, take the minimum, keep the records at the
minimum) returns exactly one record, and its timestamp is a lower bound of all
the timestamps. -/
theorem originOfRecords_unique_min (locs : List PyDict) (hne : locs ≠ [])
    (hkeys : ∀ loc ∈ locs, loc.map Prod.fst = ["lat", "lon", "ts"])
    (hdist : locs.Pairwise (fun a b => tsOf a ≠ tsOf b)) :
    ∃ l, originOfRecords locs = some [l] ∧ l ∈ locs ∧ ∀ x ∈ locs, tsOf l ≤ tsOf x := by
  obtain ⟨x, xs, rfl⟩ := List.exists_cons_of_ne_nil hne
  obtain ⟨m, hm, hmem, hle⟩ := rddMin_cons_spec (tsOf x) (xs.map tsOf)
  have hmem2 : m ∈ (x :: xs).map tsOf := by simpa using hmem
  obtain ⟨l, hl, hlm⟩ := List.mem_map.mp hmem2
  refine ⟨l, ?_, hl, ?_⟩
  · rw [originOfRecords, timestampsRDD_eq _ hkeys]
    have hmin : rddMin ((x :: xs).map tsOf) = some m := by simpa using hm
    simp only [Option.bind_eq_bind, Option.some_bind]
    rw [hmin]
    simp only [Option.some_bind]
    exact originFilter_single m _ l hkeys hdist hl hlm
  · intro z hz
    rw [hlm]
    exact hle (tsOf z) (by simpa using List.mem_map_of_mem tsOf hz)

/-- Instance of `originOfRecords_unique_min` on two concrete records. -/
theorem originOfRecords_unique_min_witness :
    ∃ l, originOfRecords
        [[("lat", (1 : ℚ)), ("lon", (2 : ℚ)), ("ts", (5 : ℚ))],
          [("lat", (3 : ℚ)), ("lon", (4 : ℚ)), ("ts", (3 : ℚ))]] = some [l] ∧
      l ∈ [[("lat", (1 : ℚ)), ("lon", (2 : ℚ)), ("ts", (5 : ℚ))],
          [("lat", (3 : ℚ)), ("lon", (4 : ℚ)), ("ts", (3 : ℚ))]] ∧
      ∀ x ∈ [[("lat", (1 : ℚ)), ("lon", (2 : ℚ)), ("ts", (5 : ℚ))],
          [("lat", (3 : ℚ)), ("lon", (4 : ℚ)), ("ts", (3 : ℚ))]], tsOf l ≤ tsOf x :=
  originOfRecords_unique_min
    [[("lat", (1 : ℚ)), ("lon", (2 : ℚ)), ("ts", (5 : ℚ))],
      [("lat", (3 : ℚ)), ("lon", (4 : ℚ)), ("ts", (3 : ℚ))]]
    (by decide) (by decide) (by decide)

/-- C10: if no line of the file passes the validity predicate, the pipeline
reaches the minimum step with an empty collection, and that step fails
(`rddMin [] = none`) rather than returning an empty or default result. -/
theorem originPipeline_none_of_no_valid (lines : List PyStr)
    (h : ∀ l ∈ lines, notTraceMetadata l = false) :
    coordinatesRDD lines = some [] ∧ rddMin [] = none ∧ originPipeline lines = none := by
  have hf : lines.filter notTraceMetadata = [] := by
    rw [List.filter_eq_nil_iff]
    intro a ha
    simp [h a ha]
  have hc : coordinatesRDD lines = some [] := by
    rw [coordinatesRDD, hf]
    rfl
  refine ⟨hc, rfl, ?_⟩
  rw [originPipeline, hc]
  rfl

/-- Instance of `originPipeline_none_of_no_valid` on the metadata header lines
of a Geolife log file. -/
theorem originPipeline_none_of_no_valid_witness :
    coordinatesRDD ["Geolife trajectory".toList, "WGS 84".toList] = some [] ∧
      rddMin [] = none ∧
      originPipeline ["Geolife trajectory".toList, "WGS 84".toList] = none :=
  originPipeline_none_of_no_valid ["Geolife trajectory".toList, "WGS 84".toList] (by decide)
